import Mathlib

/-!
Shallow embedding of `src/markdown2html.py` (a restricted Markdown to HTML
converter) and proofs about it.  Python strings are modelled as `List Char`,
Python byte strings as `List Nat` (each entry < 256), and machine 32-bit
arithmetic as `Nat` arithmetic reduced `% 2 ^ 32`.
-/

/-- Python string used throughout the embedding: a list of characters. -/
abbrev Line := List Char

/-- Characters stripped by Python's `str.strip()` with no argument
(ASCII whitespace: space, tab, newline, carriage return, vertical tab,
form feed). -/
def isPySpace (c : Char) : Bool :=
  c == ' ' || c == '\t' || c == '\n' || c == '\r' || c == '\x0b' || c == '\x0c'

/-- Python `s.startswith(pre)`. -/
def pyStartswith (s pre : Line) : Bool :=
  match pre, s with
  | [], _ => true
  | _ :: _, [] => false
  | p :: ps, c :: cs => p == c && pyStartswith cs ps

/-- Python `s.rstrip('\n')`: remove every trailing newline character. -/
def pyRstripNl (s : Line) : Line :=
  (s.reverse.dropWhile (fun c => c == '\n')).reverse

/-- Truthiness of Python `s.strip()`: `true` when the line is empty or
consists only of whitespace characters. -/
def isBlankLine (s : Line) : Bool :=
  s.all isPySpace

/-! ## The regex-substitution engine

`re.sub(open + '(.+?)' + close, f, text)` for the fixed two-character
delimiters used by the source: scan left to right; at a position where the
opening delimiter occurs and a closing delimiter follows with at least one
character in between, replace the shortest such span by `f` applied to the
inner content and resume after the closing delimiter; otherwise advance one
character.  Replacement output is never rescanned, matching `re.sub`. -/

/-- Find the shortest split `s = content ++ cl ++ rest` with `content`
non-empty; return `(content, rest)`. -/
def splitAtClose (cl : Line) : Line → Option (Line × Line)
  | [] => none
  | x :: xs =>
    if pyStartswith xs cl then some ([x], xs.drop cl.length)
    else
      match splitAtClose cl xs with
      | some (co, rest) => some (x :: co, rest)
      | none => none

/-- Fuel-indexed scanner for the substitution; each step consumes at least
one character of the input, so fuel equal to the input length suffices. -/
def substFuel (op cl : Line) (f : Line → Line) : Nat → Line → Line
  | 0, s => s
  | _ + 1, [] => []
  | fuel + 1, x :: xs =>
    if pyStartswith (x :: xs) op then
      match splitAtClose cl ((x :: xs).drop op.length) with
      | some (co, rest) => f co ++ substFuel op cl f fuel rest
      | none => x :: substFuel op cl f fuel xs
    else x :: substFuel op cl f fuel xs

/-- `re.sub` with pattern `op (.+?) cl` (non-greedy, global, non-overlapping,
leftmost-shortest) and replacement function `f`. -/
def pySub (op cl : Line) (f : Line → Line) (s : Line) : Line :=
  substFuel op cl f s.length s

/-! ## MD5 (the semantics of `hashlib.md5(...).hexdigest()`)

Translated from RFC 1321, over `Nat` with explicit `% 2 ^ 32` reductions. -/

/-- Two to the thirty-two, the modulus of MD5 word arithmetic. -/
def M32 : Nat := 4294967296

/-- Bitwise complement of a 32-bit word represented as a `Nat` below `M32`. -/
def not32 (x : Nat) : Nat := 4294967295 - x

/-- Left rotation of a 32-bit word by `s` places (`0 < s < 32` in use). -/
def rotl32 (x s : Nat) : Nat :=
  (x * 2 ^ s) % M32 + x / 2 ^ (32 - s)

/-- MD5 round constants (integer parts of `abs(sin(i+1)) * 2^32`). -/
def md5K : List Nat :=
  [0xd76aa478, 0xe8c7b756, 0x242070db, 0xc1bdceee,
   0xf57c0faf, 0x4787c62a, 0xa8304613, 0xfd469501,
   0x698098d8, 0x8b44f7af, 0xffff5bb1, 0x895cd7be,
   0x6b901122, 0xfd987193, 0xa679438e, 0x49b40821,
   0xf61e2562, 0xc040b340, 0x265e5a51, 0xe9b6c7aa,
   0xd62f105d, 0x02441453, 0xd8a1e681, 0xe7d3fbc8,
   0x21e1cde6, 0xc33707d6, 0xf4d50d87, 0x455a14ed,
   0xa9e3e905, 0xfcefa3f8, 0x676f02d9, 0x8d2a4c8a,
   0xfffa3942, 0x8771f681, 0x6d9d6122, 0xfde5380c,
   0xa4beea44, 0x4bdecfa9, 0xf6bb4b60, 0xbebfbc70,
   0x289b7ec6, 0xeaa127fa, 0xd4ef3085, 0x04881d05,
   0xd9d4d039, 0xe6db99e5, 0x1fa27cf8, 0xc4ac5665,
   0xf4292244, 0x432aff97, 0xab9423a7, 0xfc93a039,
   0x655b59c3, 0x8f0ccc92, 0xffeff47d, 0x85845dd1,
   0x6fa87e4f, 0xfe2ce6e0, 0xa3014314, 0x4e0811a1,
   0xf7537e82, 0xbd3af235, 0x2ad7d2bb, 0xeb86d391]

/-- MD5 per-round left-rotation amounts. -/
def md5S : List Nat :=
  [7, 12, 17, 22, 7, 12, 17, 22, 7, 12, 17, 22, 7, 12, 17, 22,
   5, 9, 14, 20, 5, 9, 14, 20, 5, 9, 14, 20, 5, 9, 14, 20,
   4, 11, 16, 23, 4, 11, 16, 23, 4, 11, 16, 23, 4, 11, 16, 23,
   6, 10, 15, 21, 6, 10, 15, 21, 6, 10, 15, 21, 6, 10, 15, 21]

/-- MD5 nonlinear function for round `i`. -/
def md5F (i b c d : Nat) : Nat :=
  if i < 16 then Nat.lor (Nat.land b c) (Nat.land (not32 b) d)
  else if i < 32 then Nat.lor (Nat.land d b) (Nat.land (not32 d) c)
  else if i < 48 then Nat.xor b (Nat.xor c d)
  else Nat.xor c (Nat.lor b (not32 d))

/-- MD5 message-word index for round `i`. -/
def md5G (i : Nat) : Nat :=
  if i < 16 then i
  else if i < 32 then (5 * i + 1) % 16
  else if i < 48 then (3 * i + 5) % 16
  else (7 * i) % 16

/-- One MD5 round on state `(a, b, c, d)` with message words `m`. -/
def md5Step (m : List Nat) (st : Nat × Nat × Nat × Nat) (i : Nat) :
    Nat × Nat × Nat × Nat :=
  let a := st.1
  let b := st.2.1
  let c := st.2.2.1
  let d := st.2.2.2
  let f := (md5F i b c d + a + md5K.getD i 0 + m.getD (md5G i) 0) % M32
  (d, (b + rotl32 f (md5S.getD i 0)) % M32, b, c)

/-- Process one 512-bit block (16 message words) of MD5. -/
def md5Block (st : Nat × Nat × Nat × Nat) (m : List Nat) :
    Nat × Nat × Nat × Nat :=
  let r := (List.range 64).foldl (md5Step m) st
  ((st.1 + r.1) % M32, (st.2.1 + r.2.1) % M32,
   (st.2.2.1 + r.2.2.1) % M32, (st.2.2.2 + r.2.2.2) % M32)

/-- Group a byte list into 32-bit little-endian words. -/
def bytesToWords : List Nat → List Nat
  | b0 :: b1 :: b2 :: b3 :: rest =>
    (b0 + b1 * 256 + b2 * 65536 + b3 * 16777216) :: bytesToWords rest
  | _ => []

/-- Split a byte list into 64-byte chunks (fuel-indexed; fuel equal to the
list length suffices). -/
def chunks64 : Nat → List Nat → List (List Nat)
  | 0, _ => []
  | _ + 1, [] => []
  | fuel + 1, bs => bs.take 64 :: chunks64 fuel (bs.drop 64)

/-- Little-endian 4-byte serialization of a 32-bit word. -/
def le4 (w : Nat) : List Nat :=
  [w % 256, w / 256 % 256, w / 65536 % 256, w / 16777216 % 256]

/-- Little-endian 8-byte serialization of a 64-bit length. -/
def le8 (n : Nat) : List Nat :=
  [n % 256, n / 2 ^ 8 % 256, n / 2 ^ 16 % 256, n / 2 ^ 24 % 256,
   n / 2 ^ 32 % 256, n / 2 ^ 40 % 256, n / 2 ^ 48 % 256, n / 2 ^ 56 % 256]

/-- MD5 padding: append `0x80`, zeros to 56 mod 64, then the bit length. -/
def md5Pad (msg : List Nat) : List Nat :=
  msg ++ 0x80 :: (List.replicate ((119 - msg.length % 64) % 64) 0
    ++ le8 ((msg.length * 8) % 18446744073709551616))

/-- MD5 digest of a byte string, as 16 bytes. -/
def md5Digest (msg : List Nat) : List Nat :=
  let padded := md5Pad msg
  let st := (chunks64 padded.length padded).foldl
    (fun s blk => md5Block s (bytesToWords blk))
    (0x67452301, 0xefcdab89, 0x98badcfe, 0x10325476)
  le4 st.1 ++ le4 st.2.1 ++ le4 st.2.2.1 ++ le4 st.2.2.2

/-- Lowercase hexadecimal digit for `n < 16`. -/
def hexDigitChar (n : Nat) : Char :=
  if n < 10 then Char.ofNat (48 + n) else Char.ofNat (87 + n)

/-- Two lowercase hexadecimal digits of a byte. -/
def byteToHex (b : Nat) : List Char :=
  [hexDigitChar (b / 16), hexDigitChar (b % 16)]

/-- UTF-8 encoding of one character (the semantics of Python
`str.encode()` per character). -/
def utf8Char (c : Char) : List Nat :=
  let n := c.toNat
  if n < 128 then [n]
  else if n < 2048 then [192 + n / 64, 128 + n % 64]
  else if n < 65536 then [224 + n / 4096, 128 + n / 64 % 64, 128 + n % 64]
  else [240 + n / 262144, 128 + n / 4096 % 64, 128 + n / 64 % 64,
    128 + n % 64]

/-- UTF-8 encoding of a string (Python `str.encode()`). -/
def utf8Encode (s : Line) : List Nat :=
  (s.map utf8Char).flatten

/-- Lowercase hexadecimal MD5 digest of a string
(`hashlib.md5(content.encode()).hexdigest()`). -/
def md5hex (content : Line) : Line :=
  ((md5Digest (utf8Encode content)).map byteToHex).flatten

/-! ## The inline substitution pipeline of `markdown2html.py` -/

/-- Inner helper `md5_replace` of `parse_special_syntax`: replace a
`[[...]]` span content by its MD5 hex digest. -/
def md5_replace (content : Line) : Line :=
  md5hex content

/-- Inner helper `remove_c` of `parse_special_syntax`: delete every `c` and
`C` from a `((...))` span content (`re.sub(r'[cC]', '', content)`). -/
def remove_c (content : Line) : Line :=
  content.filter (fun ch => !(ch == 'c' || ch == 'C'))

/-- Replacement template `<b>\1</b>` of the bold rule. -/
def boldWrap (content : Line) : Line :=
  "<b>".data ++ content ++ "</b>".data

/-- Replacement template `<em>\1</em>` of the emphasis rule. -/
def emWrap (content : Line) : Line :=
  "<em>".data ++ content ++ "</em>".data

/-- Embeds `parse_special_syntax` from the source (named without its last
word here for lexical reasons): first the `[[...]]` MD5 rewrite, then the
`((...))` character-strip rewrite. -/
def parse_special (text : Line) : Line :=
  pySub "((".data "))".data remove_c
    (pySub "[[".data "]]".data md5_replace text)

/-- Embeds `parse_bold_emphasis`: first the `**...**` bold rewrite, then
the `__...__` emphasis rewrite. -/
def parse_bold_emphasis (text : Line) : Line :=
  pySub "__".data "__".data emWrap
    (pySub "**".data "**".data boldWrap text)

/-- Embeds `process_line_formatting`: special syntax first, then
bold/emphasis. -/
def process_line_formatting (text : Line) : Line :=
  parse_bold_emphasis (parse_special text)

/-! ## The block assembler of `markdown_to_html`

The Python loop walks the raw `readlines()` output (lines may keep their
trailing newline).  Each branch of the loop consumes at least one line, so
the loop is modelled with a fuel parameter equal to the number of lines. -/

/-- Semantics of `re.match(r'^(#{1,6})\s+(.+)$', line)` on a line with no
trailing newline (the source applies it to `line.rstrip('\n')` only):
1 to 6 leading hash characters, at least one whitespace character, then the
content group.  The greedy `\s+` takes the maximal whitespace run; if
nothing remains it backtracks one character, which then must be a
non-newline whitespace character forming the one-character content.  A
remainder containing a newline can never match `(.+)$`. -/
def headingMatch (line : Line) : Option (Nat × Line) :=
  let n := (line.takeWhile (fun c => c == '#')).length
  if 1 ≤ n && n ≤ 6 then
    let rest := line.drop n
    let w := (rest.takeWhile isPySpace).length
    let rem := rest.drop w
    if w == 0 then none
    else
      match rem with
      | [] =>
        match rest.getLast? with
        | some c => if 2 ≤ w && !(c == '\n') then some (n, [c]) else none
        | none => none
      | _ :: _ => if rem.contains '\n' then none else some (n, rem)
  else none

/-- Output line `<h{level}>{content}</h{level}>` of the heading branch. -/
def hTag (lvl : Nat) (content : Line) : Line :=
  "<h".data ++ (Nat.repr lvl).data ++ ">".data ++ content
    ++ "</h".data ++ (Nat.repr lvl).data ++ ">".data

/-- Item line `<li>...</li>` built from a raw list line:
`process_line_formatting(lines[i][2:].rstrip('\n'))`. -/
def liItem (s : Line) : Line :=
  "<li>".data ++ process_line_formatting (pyRstripNl (s.drop 2)) ++ "</li>".data

/-- Guard of the inner unordered-list loop: `lines[i].startswith('- ')`. -/
def isUlLine (s : Line) : Bool :=
  pyStartswith s "- ".data

/-- Guard of the inner ordered-list loop: `lines[i].startswith('* ')`. -/
def isOlLine (s : Line) : Bool :=
  pyStartswith s "* ".data

/-- Guard of the inner paragraph loop: non-blank and not a heading, `- `,
or `* ` line. -/
def isParaLine (s : Line) : Bool :=
  !isBlankLine s && !pyStartswith s "#".data && !isUlLine s && !isOlLine s

/-- The `while i < len(lines)` loop of `markdown_to_html`, fuel-indexed.
Fuel equal to the number of remaining lines suffices because every branch
consumes at least one line. -/
def mdLoop : Nat → List Line → List Line
  | 0, _ => []
  | _ + 1, [] => []
  | fuel + 1, l :: rest =>
    let line := pyRstripNl l
    if pyStartswith line "#".data then
      (match headingMatch line with
       | some (lvl, content) => [hTag lvl (process_line_formatting content)]
       | none => []) ++ mdLoop fuel rest
    else if pyStartswith line "- ".data then
      let items := (l :: rest).takeWhile isUlLine
      let rem := (l :: rest).dropWhile isUlLine
      (if items.isEmpty then []
       else "<ul>".data :: items.map liItem ++ ["</ul>".data]) ++ mdLoop fuel rem
    else if pyStartswith line "* ".data then
      let items := (l :: rest).takeWhile isOlLine
      let rem := (l :: rest).dropWhile isOlLine
      (if items.isEmpty then []
       else "<ol>".data :: items.map liItem ++ ["</ol>".data]) ++ mdLoop fuel rem
    else if !isBlankLine line then
      let ps := ((l :: rest).takeWhile isParaLine).map pyRstripNl
      let rem := (l :: rest).dropWhile isParaLine
      (if ps.isEmpty then []
       else "<p>".data
         :: List.intersperse "<br/>".data (ps.map process_line_formatting)
         ++ ["</p>".data]) ++ mdLoop fuel rem
    else
      mdLoop fuel rest

/-- Embeds `markdown_to_html` restricted to its pure part: from the list of
raw input lines (as produced by `readlines()`) to the list of HTML output
lines (joined with newlines when written out). -/
def markdown_to_html (lines : List Line) : List Line :=
  mdLoop lines.length lines

/-! ## Instrumented converter

Identical control flow to `mdLoop`, but each emitted line is tagged as an
opening container markup, a closing container markup, or plain text.  This
separates the markup the assembler emits from text that merely happens to
look like markup. -/

/-- The three container kinds whose markup the assembler opens and closes. -/
inductive Tag
  | ul
  | ol
  | par
  deriving DecidableEq

/-- One tagged output line. -/
inductive OutLine
  | openTag (t : Tag)
  | closeTag (t : Tag)
  | text (s : Line)
  deriving DecidableEq

/-- Render a tagged output line back to its string form. -/
def renderOut : OutLine → Line
  | OutLine.openTag Tag.ul => "<ul>".data
  | OutLine.openTag Tag.ol => "<ol>".data
  | OutLine.openTag Tag.par => "<p>".data
  | OutLine.closeTag Tag.ul => "</ul>".data
  | OutLine.closeTag Tag.ol => "</ol>".data
  | OutLine.closeTag Tag.par => "</p>".data
  | OutLine.text s => s

/-- Tagged mirror of `mdLoop`. -/
def mdLoopT : Nat → List Line → List OutLine
  | 0, _ => []
  | _ + 1, [] => []
  | fuel + 1, l :: rest =>
    let line := pyRstripNl l
    if pyStartswith line "#".data then
      (match headingMatch line with
       | some (lvl, content) =>
         [OutLine.text (hTag lvl (process_line_formatting content))]
       | none => []) ++ mdLoopT fuel rest
    else if pyStartswith line "- ".data then
      let items := (l :: rest).takeWhile isUlLine
      let rem := (l :: rest).dropWhile isUlLine
      (if items.isEmpty then []
       else OutLine.openTag Tag.ul
         :: items.map (fun s => OutLine.text (liItem s))
         ++ [OutLine.closeTag Tag.ul]) ++ mdLoopT fuel rem
    else if pyStartswith line "* ".data then
      let items := (l :: rest).takeWhile isOlLine
      let rem := (l :: rest).dropWhile isOlLine
      (if items.isEmpty then []
       else OutLine.openTag Tag.ol
         :: items.map (fun s => OutLine.text (liItem s))
         ++ [OutLine.closeTag Tag.ol]) ++ mdLoopT fuel rem
    else if !isBlankLine line then
      let ps := ((l :: rest).takeWhile isParaLine).map pyRstripNl
      let rem := (l :: rest).dropWhile isParaLine
      (if ps.isEmpty then []
       else OutLine.openTag Tag.par
         :: List.intersperse (OutLine.text "<br/>".data)
              (ps.map (fun s => OutLine.text (process_line_formatting s)))
         ++ [OutLine.closeTag Tag.par]) ++ mdLoopT fuel rem
    else
      mdLoopT fuel rest

/-- Tagged converter at the canonical fuel. -/
def mdTagged (lines : List Line) : List OutLine :=
  mdLoopT lines.length lines

/-- Keep only the open/close markup events of a tagged output. -/
def markupEvents (l : List OutLine) : List OutLine :=
  l.filter (fun x =>
    match x with
    | OutLine.text _ => false
    | _ => true)

/-- A markup event sequence in which every opened container is immediately
followed by its matching close: the shape the assembler produces, since
containers never nest and never stay open across blocks. -/
inductive MatchedEvents : List OutLine → Prop
  | nil : MatchedEvents []
  | pair (t : Tag) (rest : List OutLine) :
      MatchedEvents rest →
      MatchedEvents (OutLine.openTag t :: OutLine.closeTag t :: rest)

/-! ## The command-line entry point

The `__main__` block, with the file system abstracted as an oracle for
`os.path.exists` (the only file-system test the source performs) and the
conversion-plus-write step left symbolic. -/

/-- Outcome of the `__main__` block. -/
inductive CliOutcome
  | usageError
  | missingInput (p : Line)
  | converted (inp : Line) (outp : Line)
  deriving DecidableEq

/-- Embeds the `__main__` block: `sys.argv` includes the program name at
index 0; fewer than 3 entries is the usage error; a path for which
`os.path.exists` is false is the missing-input error; otherwise the
conversion runs and the process exits 0.  `usageError` and `missingInput`
both exit with code 1 before any output file is opened. -/
def cliMain (argv : List Line) (pathExists : Line → Bool) : CliOutcome :=
  if argv.length < 3 then CliOutcome.usageError
  else
    let inp := argv.getD 1 []
    let outp := argv.getD 2 []
    if !pathExists inp then CliOutcome.missingInput inp
    else CliOutcome.converted inp outp

/-! ## Basic facts about the embedded string primitives -/

theorem pyStartswith_iff {pre s : Line} :
    pyStartswith s pre = true ↔ ∃ t, s = pre ++ t := by
  induction pre generalizing s with
  | nil => simp [pyStartswith]
  | cons p ps ih =>
    cases s with
    | nil => simp [pyStartswith]
    | cons c cs =>
      simp only [pyStartswith, Bool.and_eq_true, beq_iff_eq, ih]
      constructor
      · rintro ⟨rfl, t, rfl⟩
        exact ⟨t, rfl⟩
      · rintro ⟨t, h⟩
        cases h
        exact ⟨rfl, t, rfl⟩

theorem pyRstripNl_cons {c : Char} (h : ¬c = '\n') (t : Line) :
    pyRstripNl (c :: t) = c :: pyRstripNl t := by
  have hc : (c == '\n') = false := by simpa using h
  simp only [pyRstripNl, List.reverse_cons, List.dropWhile_append]
  by_cases he : (t.reverse.dropWhile (fun x => x == '\n')).isEmpty
  · rw [List.isEmpty_iff] at he
    simp [he, List.dropWhile, hc]
  · simp [he]

theorem exists_rstrip_append (s : Line) :
    ∃ k, s = pyRstripNl s ++ List.replicate k '\n' := by
  refine ⟨(s.reverse.takeWhile (fun c => c == '\n')).length, ?_⟩
  have hsplit := List.takeWhile_append_dropWhile
    (p := fun c : Char => c == '\n') (l := s.reverse)
  have hrepl : s.reverse.takeWhile (fun c => c == '\n') =
      List.replicate (s.reverse.takeWhile (fun c => c == '\n')).length '\n' := by
    apply List.eq_replicate_of_mem
    intro b hb
    have := List.mem_takeWhile_imp hb
    simpa using this
  calc s = s.reverse.reverse := by simp
    _ = (s.reverse.takeWhile (fun c => c == '\n')
          ++ s.reverse.dropWhile (fun c => c == '\n')).reverse := by rw [hsplit]
    _ = pyRstripNl s ++ (s.reverse.takeWhile (fun c => c == '\n')).reverse := by
          rw [List.reverse_append]; rfl
    _ = _ := by rw [hrepl, List.reverse_replicate]; simp

theorem startswith_of_rstrip_startswith {l pre : Line}
    (h : pyStartswith (pyRstripNl l) pre = true) : pyStartswith l pre = true := by
  rcases pyStartswith_iff.mp h with ⟨t, ht⟩
  rcases exists_rstrip_append l with ⟨k, hk⟩
  exact pyStartswith_iff.mpr ⟨t ++ List.replicate k '\n', by rw [hk, ht]; simp⟩

theorem rstrip_startswith_of_ul {l : Line} (h : isUlLine l = true) :
    pyStartswith (pyRstripNl l) "- ".data = true := by
  rcases pyStartswith_iff.mp h with ⟨t, rfl⟩
  rw [show ("- ".data ++ t : Line) = '-' :: ' ' :: t from rfl,
    pyRstripNl_cons (by decide), pyRstripNl_cons (by decide)]
  exact pyStartswith_iff.mpr ⟨pyRstripNl t, rfl⟩

theorem rstrip_startswith_of_ol {l : Line} (h : isOlLine l = true) :
    pyStartswith (pyRstripNl l) "* ".data = true := by
  rcases pyStartswith_iff.mp h with ⟨t, rfl⟩
  rw [show ("* ".data ++ t : Line) = '*' :: ' ' :: t from rfl,
    pyRstripNl_cons (by decide), pyRstripNl_cons (by decide)]
  exact pyStartswith_iff.mpr ⟨pyRstripNl t, rfl⟩

theorem rstrip_startswith_of_hash {l : Line}
    (h : pyStartswith l "#".data = true) :
    pyStartswith (pyRstripNl l) "#".data = true := by
  rcases pyStartswith_iff.mp h with ⟨t, rfl⟩
  rw [show ("#".data ++ t : Line) = '#' :: t from rfl, pyRstripNl_cons (by decide)]
  exact pyStartswith_iff.mpr ⟨pyRstripNl t, rfl⟩

theorem all_isPySpace_replicate_nl (k : Nat) :
    (List.replicate k '\n').all isPySpace = true := by
  induction k with
  | zero => rfl
  | succ n ih => simp [List.replicate, isPySpace, ih]

theorem isBlank_append_replicate (s : Line) (k : Nat) :
    isBlankLine (s ++ List.replicate k '\n') = isBlankLine s := by
  simp [isBlankLine, List.all_append, all_isPySpace_replicate_nl k]

theorem isBlankLine_rstrip_iff {l : Line} :
    isBlankLine (pyRstripNl l) = true ↔ isBlankLine l = true := by
  rcases exists_rstrip_append l with ⟨k, hk⟩
  have h2 := isBlank_append_replicate (pyRstripNl l) k
  rw [← hk] at h2
  rw [h2]

theorem not_startswith_of_blank {s : Line} {c : Char} {pre : Line}
    (hb : isBlankLine s = true) (hc : isPySpace c = false) :
    pyStartswith s (c :: pre) = false := by
  by_contra hne
  have h : pyStartswith s (c :: pre) = true := by
    cases hp : pyStartswith s (c :: pre)
    · exact absurd hp hne
    · rfl
  rcases pyStartswith_iff.mp h with ⟨t, rfl⟩
  rw [show (c :: pre) ++ t = c :: (pre ++ t) from rfl, isBlankLine, List.all_cons,
    hc, Bool.false_and] at hb
  exact Bool.false_ne_true hb

theorem length_dropWhile_le' {α : Type} (p : α → Bool) (l : List α) :
    (l.dropWhile p).length ≤ l.length := by
  induction l with
  | nil => exact Nat.le_refl 0
  | cons a t ih =>
    rw [List.dropWhile_cons]
    split
    · exact Nat.le_trans ih (Nat.le_succ _)
    · exact Nat.le_refl _

theorem map_intersperse' {α β : Type} (f : α → β) (sep : α) (l : List α) :
    (List.intersperse sep l).map f = List.intersperse (f sep) (l.map f) := by
  induction l with
  | nil => rfl
  | cons a t ih =>
    cases t with
    | nil => rfl
    | cons b t2 => simpa [List.intersperse] using ih

theorem length_intersperse' {α : Type} (sep : α) (l : List α) (h : l ≠ []) :
    (List.intersperse sep l).length = 2 * l.length - 1 := by
  induction l with
  | nil => exact absurd rfl h
  | cons a t ih =>
    cases t with
    | nil => rfl
    | cons b t2 =>
      have := ih (by simp)
      simp only [List.intersperse, List.length_cons] at this ⊢
      omega

theorem takeWhile_all_append {α : Type} (p : α → Bool) {xs : List α}
    (l2 : List α) (h : ∀ x ∈ xs, p x = true) :
    List.takeWhile p (xs ++ l2) = xs ++ List.takeWhile p l2 := by
  induction xs with
  | nil => rfl
  | cons a t ih =>
    rw [List.cons_append, List.takeWhile_cons_of_pos (h a (by simp)),
      ih fun x hx => h x (by simp [hx])]
    rfl

theorem dropWhile_all_append {α : Type} (p : α → Bool) {xs : List α}
    (l2 : List α) (h : ∀ x ∈ xs, p x = true) :
    List.dropWhile p (xs ++ l2) = List.dropWhile p l2 := by
  induction xs with
  | nil => rfl
  | cons a t ih =>
    rw [List.cons_append, List.dropWhile_cons_of_pos (h a (by simp)),
      ih fun x hx => h x (by simp [hx])]

/-! ## Fuel irrelevance and one-block step equations for the assembler -/

theorem mdLoop_eq_of_le : ∀ (f1 f2 : Nat) (lines : List Line),
    lines.length ≤ f1 → lines.length ≤ f2 → mdLoop f1 lines = mdLoop f2 lines := by
  intro f1
  induction f1 with
  | zero =>
    intro f2 lines h1 _
    have hnil : lines = [] := List.eq_nil_of_length_eq_zero (Nat.le_zero.mp h1)
    subst hnil
    cases f2 <;> rfl
  | succ f ih =>
    intro f2 lines h1 h2
    cases lines with
    | nil => cases f2 <;> rfl
    | cons l rest =>
      cases f2 with
      | zero => simp at h2
      | succ f2' =>
        simp only [List.length_cons, Nat.add_le_add_iff_right] at h1 h2
        simp only [mdLoop]
        by_cases hh : pyStartswith (pyRstripNl l) "#".data = true
        · simp only [hh, if_true]
          rw [ih f2' rest h1 h2]
        · simp only [Bool.not_eq_true] at hh
          simp only [hh, Bool.false_eq_true, if_false]
          by_cases hul : pyStartswith (pyRstripNl l) "- ".data = true
          · have hl : isUlLine l = true := startswith_of_rstrip_startswith hul
            have hb1 : ((l :: rest).dropWhile isUlLine).length ≤ rest.length := by
              rw [List.dropWhile_cons_of_pos hl]
              exact length_dropWhile_le' _ _
            simp only [hul, if_true]
            rw [ih f2' _ (Nat.le_trans hb1 h1) (Nat.le_trans hb1 h2)]
          · simp only [Bool.not_eq_true] at hul
            simp only [hul, Bool.false_eq_true, if_false]
            by_cases hol : pyStartswith (pyRstripNl l) "* ".data = true
            · have hl : isOlLine l = true := startswith_of_rstrip_startswith hol
              have hb1 : ((l :: rest).dropWhile isOlLine).length ≤ rest.length := by
                rw [List.dropWhile_cons_of_pos hl]
                exact length_dropWhile_le' _ _
              simp only [hol, if_true]
              rw [ih f2' _ (Nat.le_trans hb1 h1) (Nat.le_trans hb1 h2)]
            · simp only [Bool.not_eq_true] at hol
              simp only [hol, Bool.false_eq_true, if_false]
              by_cases hbl : isBlankLine (pyRstripNl l) = true
              · simp only [hbl, Bool.not_true, Bool.false_eq_true, if_false]
                rw [ih f2' rest h1 h2]
              · simp only [Bool.not_eq_true] at hbl
                have hl : isParaLine l = true := by
                  have hb' : isBlankLine l = false := by
                    cases hx : isBlankLine l
                    · rfl
                    · rw [isBlankLine_rstrip_iff.mpr hx] at hbl
                      exact absurd hbl (by simp)
                  have hraw1 : pyStartswith l "#".data = false := by
                    cases hx : pyStartswith l "#".data
                    · rfl
                    · rw [rstrip_startswith_of_hash hx] at hh
                      exact absurd hh (by simp)
                  have hraw2 : isUlLine l = false := by
                    cases hx : isUlLine l
                    · rfl
                    · rw [rstrip_startswith_of_ul hx] at hul
                      exact absurd hul (by simp)
                  have hraw3 : isOlLine l = false := by
                    cases hx : isOlLine l
                    · rfl
                    · rw [rstrip_startswith_of_ol hx] at hol
                      exact absurd hol (by simp)
                  simp [isParaLine, hb', hraw1, hraw2, hraw3]
                have hb1 : ((l :: rest).dropWhile isParaLine).length ≤ rest.length := by
                  rw [List.dropWhile_cons_of_pos hl]
                  exact length_dropWhile_le' _ _
                simp only [hbl, Bool.not_false, if_true]
                rw [ih f2' _ (Nat.le_trans hb1 h1) (Nat.le_trans hb1 h2)]

theorem md_heading_step (l : Line) (rest : List Line)
    (h : pyStartswith (pyRstripNl l) "#".data = true) :
    markdown_to_html (l :: rest) =
      (match headingMatch (pyRstripNl l) with
       | some (lvl, content) => [hTag lvl (process_line_formatting content)]
       | none => []) ++ markdown_to_html rest := by
  unfold markdown_to_html
  simp only [List.length_cons, mdLoop, h, if_true]

theorem md_ul_step (l : Line) (rest : List Line) (h : isUlLine l = true) :
    markdown_to_html (l :: rest) =
      "<ul>".data :: ((l :: rest).takeWhile isUlLine).map liItem
        ++ "</ul>".data :: markdown_to_html ((l :: rest).dropWhile isUlLine) := by
  have hs : pyStartswith (pyRstripNl l) "- ".data = true := rstrip_startswith_of_ul h
  have hh : pyStartswith (pyRstripNl l) "#".data = false := by
    rcases pyStartswith_iff.mp hs with ⟨t, ht⟩
    rw [ht]
    rfl
  have hitems : ((l :: rest).takeWhile isUlLine).isEmpty = false := by
    rw [List.takeWhile_cons_of_pos h]
    rfl
  have hlen : ((l :: rest).dropWhile isUlLine).length ≤ rest.length := by
    rw [List.dropWhile_cons_of_pos h]
    exact length_dropWhile_le' _ _
  unfold markdown_to_html
  simp only [List.length_cons, mdLoop, hh, Bool.false_eq_true, if_false, hs,
    if_true, hitems]
  rw [mdLoop_eq_of_le rest.length ((l :: rest).dropWhile isUlLine).length
    ((l :: rest).dropWhile isUlLine) hlen (Nat.le_refl _)]
  simp

theorem md_ol_step (l : Line) (rest : List Line) (h : isOlLine l = true) :
    markdown_to_html (l :: rest) =
      "<ol>".data :: ((l :: rest).takeWhile isOlLine).map liItem
        ++ "</ol>".data :: markdown_to_html ((l :: rest).dropWhile isOlLine) := by
  have hs : pyStartswith (pyRstripNl l) "* ".data = true := rstrip_startswith_of_ol h
  have hh : pyStartswith (pyRstripNl l) "#".data = false := by
    rcases pyStartswith_iff.mp hs with ⟨t, ht⟩
    rw [ht]
    rfl
  have hul : pyStartswith (pyRstripNl l) "- ".data = false := by
    rcases pyStartswith_iff.mp hs with ⟨t, ht⟩
    rw [ht]
    rfl
  have hitems : ((l :: rest).takeWhile isOlLine).isEmpty = false := by
    rw [List.takeWhile_cons_of_pos h]
    rfl
  have hlen : ((l :: rest).dropWhile isOlLine).length ≤ rest.length := by
    rw [List.dropWhile_cons_of_pos h]
    exact length_dropWhile_le' _ _
  unfold markdown_to_html
  simp only [List.length_cons, mdLoop, hh, hul, Bool.false_eq_true, if_false, hs,
    if_true, hitems]
  rw [mdLoop_eq_of_le rest.length ((l :: rest).dropWhile isOlLine).length
    ((l :: rest).dropWhile isOlLine) hlen (Nat.le_refl _)]
  simp

theorem md_blank_step (l : Line) (rest : List Line) (h : isBlankLine l = true) :
    markdown_to_html (l :: rest) = markdown_to_html rest := by
  have hb : isBlankLine (pyRstripNl l) = true := isBlankLine_rstrip_iff.mpr h
  have h1 : pyStartswith (pyRstripNl l) "#".data = false :=
    not_startswith_of_blank hb (by decide)
  have h2 : pyStartswith (pyRstripNl l) "- ".data = false :=
    not_startswith_of_blank hb (by decide)
  have h3 : pyStartswith (pyRstripNl l) "* ".data = false :=
    not_startswith_of_blank hb (by decide)
  unfold markdown_to_html
  simp only [List.length_cons, mdLoop, h1, h2, h3, hb, Bool.not_true,
    Bool.false_eq_true, if_false]

theorem md_para_step (l : Line) (rest : List Line)
    (hb : isBlankLine (pyRstripNl l) = false)
    (h1 : pyStartswith (pyRstripNl l) "#".data = false)
    (h2 : pyStartswith (pyRstripNl l) "- ".data = false)
    (h3 : pyStartswith (pyRstripNl l) "* ".data = false) :
    markdown_to_html (l :: rest) =
      "<p>".data
        :: List.intersperse "<br/>".data
             ((((l :: rest).takeWhile isParaLine).map pyRstripNl).map
               process_line_formatting)
        ++ "</p>".data :: markdown_to_html ((l :: rest).dropWhile isParaLine) := by
  have hl : isParaLine l = true := by
    have hb' : isBlankLine l = false := by
      cases hx : isBlankLine l
      · rfl
      · rw [isBlankLine_rstrip_iff.mpr hx] at hb
        exact absurd hb (by simp)
    have hraw1 : pyStartswith l "#".data = false := by
      cases hx : pyStartswith l "#".data
      · rfl
      · rw [rstrip_startswith_of_hash hx] at h1
        exact absurd h1 (by simp)
    have hraw2 : isUlLine l = false := by
      cases hx : isUlLine l
      · rfl
      · rw [rstrip_startswith_of_ul hx] at h2
        exact absurd h2 (by simp)
    have hraw3 : isOlLine l = false := by
      cases hx : isOlLine l
      · rfl
      · rw [rstrip_startswith_of_ol hx] at h3
        exact absurd h3 (by simp)
    simp [isParaLine, hb', hraw1, hraw2, hraw3]
  have hps : (((l :: rest).takeWhile isParaLine).map pyRstripNl).isEmpty = false := by
    rw [List.takeWhile_cons_of_pos hl]
    rfl
  have hlen : ((l :: rest).dropWhile isParaLine).length ≤ rest.length := by
    rw [List.dropWhile_cons_of_pos hl]
    exact length_dropWhile_le' _ _
  unfold markdown_to_html
  simp only [List.length_cons, mdLoop, h1, h2, h3, hb, Bool.not_false,
    Bool.false_eq_true, if_false, if_true, hps]
  rw [mdLoop_eq_of_le rest.length ((l :: rest).dropWhile isParaLine).length
    ((l :: rest).dropWhile isParaLine) hlen (Nat.le_refl _)]
  simp

/-! ## Facts about the instrumented converter -/

theorem markupEvents_append (a b : List OutLine) :
    markupEvents (a ++ b) = markupEvents a ++ markupEvents b :=
  List.filter_append a b

theorem markupEvents_map_text (g : Line → Line) (l : List Line) :
    markupEvents (l.map fun s => OutLine.text (g s)) = [] := by
  induction l with
  | nil => rfl
  | cons a t ih =>
    simp only [List.map_cons, markupEvents, List.filter_cons]
    simpa only [markupEvents] using ih

theorem markupEvents_intersperse_text (sep : Line) (g : Line → Line)
    (l : List Line) :
    markupEvents (List.intersperse (OutLine.text sep)
      (l.map fun s => OutLine.text (g s))) = [] := by
  induction l with
  | nil => rfl
  | cons a t ih =>
    cases t with
    | nil => rfl
    | cons b t2 =>
      simp only [List.map_cons, List.intersperse_cons_cons] at ih ⊢
      simpa [markupEvents, List.filter_cons] using ih

theorem mdLoopT_render : ∀ (fuel : Nat) (lines : List Line),
    (mdLoopT fuel lines).map renderOut = mdLoop fuel lines := by
  intro fuel
  induction fuel with
  | zero => intro lines; rfl
  | succ f ih =>
    intro lines
    cases lines with
    | nil => rfl
    | cons l rest =>
      simp only [mdLoopT, mdLoop]
      by_cases hh : pyStartswith (pyRstripNl l) "#".data = true
      · simp only [hh, if_true, List.map_append, ih]
        congr 1
        cases hm : headingMatch (pyRstripNl l) with
        | none => rfl
        | some p => cases p; rfl
      · simp only [Bool.not_eq_true] at hh
        simp only [hh, Bool.false_eq_true, if_false]
        by_cases hul : pyStartswith (pyRstripNl l) "- ".data = true
        · simp only [hul, if_true, List.map_append, ih]
          congr 1
          by_cases he : ((l :: rest).takeWhile isUlLine).isEmpty = true
          · simp [he]
          · simp only [Bool.not_eq_true] at he
            simp [he, renderOut, List.map_map, Function.comp]
        · simp only [Bool.not_eq_true] at hul
          simp only [hul, Bool.false_eq_true, if_false]
          by_cases hol : pyStartswith (pyRstripNl l) "* ".data = true
          · simp only [hol, if_true, List.map_append, ih]
            congr 1
            by_cases he : ((l :: rest).takeWhile isOlLine).isEmpty = true
            · simp [he]
            · simp only [Bool.not_eq_true] at he
              simp [he, renderOut, List.map_map, Function.comp]
          · simp only [Bool.not_eq_true] at hol
            simp only [hol, Bool.false_eq_true, if_false]
            by_cases hbl : isBlankLine (pyRstripNl l) = true
            · simp only [hbl, Bool.not_true, Bool.false_eq_true, if_false, ih]
            · simp only [Bool.not_eq_true] at hbl
              simp only [hbl, Bool.not_false, if_true, List.map_append, ih]
              congr 1
              by_cases he :
                  (((l :: rest).takeWhile isParaLine).map pyRstripNl).isEmpty = true
              · simp [he]
              · simp only [Bool.not_eq_true] at he
                simp [he, renderOut, map_intersperse', List.map_map, Function.comp]
                congr 1

theorem mdLoopT_matched : ∀ (fuel : Nat) (lines : List Line),
    MatchedEvents (markupEvents (mdLoopT fuel lines)) := by
  intro fuel
  induction fuel with
  | zero => intro lines; exact MatchedEvents.nil
  | succ f ih =>
    intro lines
    cases lines with
    | nil => exact MatchedEvents.nil
    | cons l rest =>
      simp only [mdLoopT]
      by_cases hh : pyStartswith (pyRstripNl l) "#".data = true
      · simp only [hh, if_true]
        cases hm : headingMatch (pyRstripNl l) with
        | none => simpa using ih rest
        | some p =>
          cases p
          simpa [markupEvents_append, markupEvents, List.filter_cons] using ih rest
      · simp only [Bool.not_eq_true] at hh
        simp only [hh, Bool.false_eq_true, if_false]
        by_cases hul : pyStartswith (pyRstripNl l) "- ".data = true
        · simp only [hul, if_true]
          by_cases he : ((l :: rest).takeWhile isUlLine).isEmpty = true
          · simpa [he] using ih ((l :: rest).dropWhile isUlLine)
          · simp only [Bool.not_eq_true] at he
            simp only [he, Bool.false_eq_true, if_false, markupEvents_append,
              List.cons_append]
            have hmap := markupEvents_map_text liItem ((l :: rest).takeWhile isUlLine)
            simp only [markupEvents, List.filter_cons] at hmap ⊢
            simp only [List.filter_append]
            simp [hmap]
            exact MatchedEvents.pair Tag.ul _
              (by simpa [markupEvents] using ih ((l :: rest).dropWhile isUlLine))
          -- close ul case
        · simp only [Bool.not_eq_true] at hul
          simp only [hul, Bool.false_eq_true, if_false]
          by_cases hol : pyStartswith (pyRstripNl l) "* ".data = true
          · simp only [hol, if_true]
            by_cases he : ((l :: rest).takeWhile isOlLine).isEmpty = true
            · simpa [he] using ih ((l :: rest).dropWhile isOlLine)
            · simp only [Bool.not_eq_true] at he
              simp only [he, Bool.false_eq_true, if_false, markupEvents_append,
                List.cons_append]
              have hmap := markupEvents_map_text liItem ((l :: rest).takeWhile isOlLine)
              simp only [markupEvents, List.filter_cons] at hmap ⊢
              simp only [List.filter_append]
              simp [hmap]
              exact MatchedEvents.pair Tag.ol _
                (by simpa [markupEvents] using ih ((l :: rest).dropWhile isOlLine))
          · simp only [Bool.not_eq_true] at hol
            simp only [hol, Bool.false_eq_true, if_false]
            by_cases hbl : isBlankLine (pyRstripNl l) = true
            · simp only [hbl, Bool.not_true, Bool.false_eq_true, if_false]
              exact ih rest
            · simp only [Bool.not_eq_true] at hbl
              simp only [hbl, Bool.not_false, if_true]
              by_cases he :
                  (((l :: rest).takeWhile isParaLine).map pyRstripNl).isEmpty = true
              · simpa [he] using ih ((l :: rest).dropWhile isParaLine)
              · simp only [Bool.not_eq_true] at he
                simp only [he, Bool.false_eq_true, if_false, markupEvents_append,
                  List.cons_append]
                have hmap := markupEvents_intersperse_text "<br/>".data
                  process_line_formatting
                  (((l :: rest).takeWhile isParaLine).map pyRstripNl)
                simp only [List.map_map] at hmap
                simp only [markupEvents, List.filter_cons] at hmap ⊢
                simp only [List.filter_append]
                simp [hmap]
                exact MatchedEvents.pair Tag.par _
                  (by simpa [markupEvents] using ih ((l :: rest).dropWhile isParaLine))

/-! ## Pass-through and digest-shape facts for the inline engine -/

theorem substFuel_id_of_not_mem {c0 : Char} {opRest cl : Line}
    {f : Line → Line} : ∀ (fuel : Nat) (s : Line), c0 ∉ s →
    substFuel (c0 :: opRest) cl f fuel s = s := by
  intro fuel
  induction fuel with
  | zero => intro s _; rfl
  | succ n ih =>
    intro s hs
    cases s with
    | nil => rfl
    | cons x xs =>
      have hx : (c0 == x) = false := by
        have : ¬c0 = x := fun h => hs (h ▸ List.mem_cons_self x xs)
        simpa using this
      have hxs : c0 ∉ xs := fun h => hs (List.mem_cons_of_mem x h)
      simp only [substFuel, pyStartswith, hx, Bool.false_and, Bool.false_eq_true,
        if_false]
      rw [ih xs hxs]

theorem pySub_id_of_not_mem {c0 : Char} {opRest cl : Line} {f : Line → Line}
    {s : Line} (h : c0 ∉ s) : pySub (c0 :: opRest) cl f s = s :=
  substFuel_id_of_not_mem s.length s h

theorem process_line_formatting_id {s : Line} (h1 : '[' ∉ s) (h2 : '(' ∉ s)
    (h3 : '*' ∉ s) (h4 : '_' ∉ s) : process_line_formatting s = s := by
  unfold process_line_formatting parse_special parse_bold_emphasis
  rw [pySub_id_of_not_mem h1, pySub_id_of_not_mem h2, pySub_id_of_not_mem h3,
    pySub_id_of_not_mem h4]

theorem flatten_byteToHex_length (bs : List Nat) :
    ((bs.map byteToHex).flatten).length = 2 * bs.length := by
  induction bs with
  | nil => rfl
  | cons b t ih =>
    simp only [List.map_cons, List.flatten_cons, List.length_append, ih,
      byteToHex, List.length_cons, List.length_nil]
    omega

theorem md5Digest_length (m : List Nat) : (md5Digest m).length = 16 := by
  simp [md5Digest, le4]

theorem md5hex_length (s : Line) : (md5hex s).length = 32 := by
  unfold md5hex
  rw [flatten_byteToHex_length, md5Digest_length]

/-! ## Counting output lines (no-special-character inputs) -/

/-- Number of input lines whose `strip()` is non-empty. -/
def nonBlankCount (lines : List Line) : Nat :=
  (lines.filter (fun l => !isBlankLine l)).length

/-- A line contains one of the characters this converter treats specially
(block markers, inline delimiters). -/
def hasSpecialChar (l : Line) : Bool :=
  l.any (fun c => c == '#' || c == '-' || c == '*' || c == '_'
    || c == '[' || c == ']' || c == '(' || c == ')')

theorem mem_of_mem_rstrip {c : Char} {l : Line} (h : c ∈ pyRstripNl l) :
    c ∈ l := by
  rcases exists_rstrip_append l with ⟨k, hk⟩
  rw [hk]
  exact List.mem_append_left _ h

theorem no_special_guards {l : Line} (h : hasSpecialChar l = false) :
    pyStartswith (pyRstripNl l) "#".data = false ∧
    pyStartswith (pyRstripNl l) "- ".data = false ∧
    pyStartswith (pyRstripNl l) "* ".data = false ∧
    isUlLine l = false ∧ isOlLine l = false ∧
    pyStartswith l "#".data = false := by
  have hmem : ∀ c ∈ l, (c == '#' || c == '-' || c == '*' || c == '_'
      || c == '[' || c == ']' || c == '(' || c == ')') = false := by
    intro c hc
    have := List.any_eq_false.mp h c hc
    simpa using this
  have hhd : ∀ (c : Char) (pre : Line), c ∈ (["#".data, "- ".data, "* ".data].flatten) →
      True := fun _ _ _ => trivial
  have key : ∀ (c : Char) (pre : Line),
      (c == '#' || c == '-' || c == '*' || c == '_'
        || c == '[' || c == ']' || c == '(' || c == ')') = true →
      pyStartswith (pyRstripNl l) (c :: pre) = false ∧
      pyStartswith l (c :: pre) = false := by
    intro c pre hc
    constructor
    · cases hx : pyStartswith (pyRstripNl l) (c :: pre)
      · rfl
      · rcases pyStartswith_iff.mp hx with ⟨t, ht⟩
        have : c ∈ pyRstripNl l := by
          rw [ht]; exact List.mem_cons_self _ _
        have := hmem c (mem_of_mem_rstrip this)
        rw [hc] at this
        exact absurd this (by simp)
    · cases hx : pyStartswith l (c :: pre)
      · rfl
      · rcases pyStartswith_iff.mp hx with ⟨t, ht⟩
        have : c ∈ l := by
          rw [ht]; exact List.mem_cons_self _ _
        have := hmem c this
        rw [hc] at this
        exact absurd this (by simp)
    
  exact ⟨(key '#' [] (by decide)).1, (key '-' [' '] (by decide)).1,
    (key '*' [' '] (by decide)).1, (key '-' [' '] (by decide)).2,
    (key '*' [' '] (by decide)).2, (key '#' [] (by decide)).2⟩

theorem mdLoop_count_aux : ∀ (fuel : Nat) (lines : List Line),
    lines.length ≤ fuel → (∀ l ∈ lines, hasSpecialChar l = false) →
    nonBlankCount lines ≤ (mdLoop fuel lines).length := by
  intro fuel
  induction fuel with
  | zero =>
    intro lines h1 _
    have hnil : lines = [] := List.eq_nil_of_length_eq_zero (Nat.le_zero.mp h1)
    subst hnil
    simp [nonBlankCount]
  | succ f ih =>
    intro lines h1 hs
    cases lines with
    | nil => simp [nonBlankCount, mdLoop]
    | cons l rest =>
      have hlen : rest.length ≤ f := by
        simpa using h1
      obtain ⟨g1, g2, g3, g4, g5, g6⟩ := no_special_guards (hs l (by simp))
      simp only [mdLoop, g1, g2, g3, Bool.false_eq_true, if_false]
      by_cases hbl : isBlankLine (pyRstripNl l) = true
      · have hbraw : isBlankLine l = true := isBlankLine_rstrip_iff.mp hbl
        simp only [hbl, Bool.not_true, Bool.false_eq_true, if_false]
        have : nonBlankCount (l :: rest) = nonBlankCount rest := by
          simp [nonBlankCount, List.filter_cons, hbraw]
        rw [this]
        exact ih rest hlen (fun x hx => hs x (by simp [hx]))
      · simp only [Bool.not_eq_true] at hbl
        have hbraw : isBlankLine l = false := by
          cases hx : isBlankLine l
          · rfl
          · rw [isBlankLine_rstrip_iff.mpr hx] at hbl
            exact absurd hbl (by simp)
        have hl : isParaLine l = true := by
          simp [isParaLine, hbraw, g4, g5, g6]
        have hps : (((l :: rest).takeWhile isParaLine).map pyRstripNl).isEmpty
            = false := by
          rw [List.takeWhile_cons_of_pos hl]
          rfl
        simp only [hbl, Bool.not_false, if_true, hps, Bool.false_eq_true, if_false]
        have hsplit := List.takeWhile_append_dropWhile (p := isParaLine)
          (l := l :: rest)
        have hcount : nonBlankCount (l :: rest) =
            nonBlankCount ((l :: rest).takeWhile isParaLine)
              + nonBlankCount ((l :: rest).dropWhile isParaLine) := by
          conv_lhs => rw [← hsplit]
          simp only [nonBlankCount, List.filter_append, List.length_append]
        have hrem_mem : ∀ x ∈ (l :: rest).dropWhile isParaLine, x ∈ l :: rest := by
          intro x hx
          rw [← hsplit]
          exact List.mem_append_right _ hx
        have hrem_len : ((l :: rest).dropWhile isParaLine).length ≤ f := by
          rw [List.dropWhile_cons_of_pos hl]
          exact Nat.le_trans (length_dropWhile_le' _ _) hlen
        have hih := ih ((l :: rest).dropWhile isParaLine) hrem_len
          (fun x hx => hs x (hrem_mem x hx))
        have htw : 1 ≤ ((l :: rest).takeWhile isParaLine).length := by
          rw [List.takeWhile_cons_of_pos hl]
          simp
        have hfil : nonBlankCount ((l :: rest).takeWhile isParaLine)
            ≤ ((l :: rest).takeWhile isParaLine).length :=
          List.length_filter_le _ _
        have hint : (List.intersperse "<br/>".data
            ((((l :: rest).takeWhile isParaLine).map pyRstripNl).map
              process_line_formatting)).length =
            2 * ((l :: rest).takeWhile isParaLine).length - 1 := by
          rw [length_intersperse', List.length_map, List.length_map]
          intro hemp
          rw [List.takeWhile_cons_of_pos hl] at hemp
          simp at hemp
        rw [hcount]
        simp only [List.length_append, List.length_cons, hint]
        omega

/-! ## The claims -/

/-- Claim C1: the inline pipeline applies exactly the four rewrites in the
order hash, character-strip, bold, emphasis, each a global non-overlapping
shortest-match replacement over the previous step's output, and on the
input string of end-to-end scenario 4 it produces the expected output. -/
theorem claim_C1 :
    (∀ s : Line, process_line_formatting s =
      pySub "__".data "__".data emWrap
        (pySub "**".data "**".data boldWrap
          (pySub "((".data "))".data remove_c
            (pySub "[[".data "]]".data md5_replace s)))) ∧
    process_line_formatting "**bold** and __em__".data
      = "<b>bold</b> and <em>em</em>".data :=
  ⟨fun _ => rfl, by decide⟩

/-- Counterexample to claim C2: a blank line does close an open list block.
On the input lines `- a`, blank, `- b` the converter emits two separate
`<ul>` containers, not the single container the claim requires. -/
theorem claim_C2_counterexample :
    markdown_to_html ["- a".data, "".data, "- b".data] =
      ["<ul>".data, "<li>a</li>".data, "</ul>".data,
       "<ul>".data, "<li>b</li>".data, "</ul>".data] ∧
    markdown_to_html ["- a".data, "".data, "- b".data] ≠
      ["<ul>".data, "<li>a</li>".data, "<li>b</li>".data, "</ul>".data] := by
  constructor
  · decide
  · decide

/-- Claim C2 as amended: a blank line closes an open paragraph block (the
`</p>` is emitted when the blank line is reached and the blank line itself
emits nothing) and also terminates an open list block: two runs of `- `
(resp. `* `) item lines separated by a blank line are emitted as two
separate `<ul>` (resp. `<ol>`) containers, each closed before the blank
line is consumed. -/
theorem claim_C2 (xs ys : List Line) (b : Line) (hb : isBlankLine b = true) :
    ((∀ x ∈ xs, isUlLine x = true) → (∀ y ∈ ys, isUlLine y = true) →
      xs ≠ [] → ys ≠ [] →
      markdown_to_html (xs ++ b :: ys) =
        ("<ul>".data :: xs.map liItem ++ ["</ul>".data])
          ++ ("<ul>".data :: ys.map liItem ++ ["</ul>".data])) ∧
    ((∀ x ∈ xs, isOlLine x = true) → (∀ y ∈ ys, isOlLine y = true) →
      xs ≠ [] → ys ≠ [] →
      markdown_to_html (xs ++ b :: ys) =
        ("<ol>".data :: xs.map liItem ++ ["</ol>".data])
          ++ ("<ol>".data :: ys.map liItem ++ ["</ol>".data])) ∧
    (∀ (ps rest : List Line), (∀ x ∈ ps, isParaLine x = true) → ps ≠ [] →
      markdown_to_html (ps ++ b :: rest) =
        "<p>".data
          :: List.intersperse "<br/>".data
               ((ps.map pyRstripNl).map process_line_formatting)
          ++ "</p>".data :: markdown_to_html rest) := by
  have hbul : isUlLine b = false := not_startswith_of_blank hb (by decide)
  have hbol : isOlLine b = false := not_startswith_of_blank hb (by decide)
  have hbpara : isParaLine b = false := by simp [isParaLine, hb]
  refine ⟨?_, ?_, ?_⟩
  · intro hxs hys hx hy
    cases xs with
    | nil => exact absurd rfl hx
    | cons x xs2 =>
      rw [List.cons_append, md_ul_step x (xs2 ++ b :: ys) (hxs x (by simp))]
      have e1 : (x :: (xs2 ++ b :: ys)) = (x :: xs2) ++ (b :: ys) := by simp
      rw [e1, takeWhile_all_append isUlLine (b :: ys) hxs,
        dropWhile_all_append isUlLine (b :: ys) hxs,
        List.takeWhile_cons_of_neg (by simp [hbul]),
        List.dropWhile_cons_of_neg (by simp [hbul]), md_blank_step b ys hb]
      cases ys with
      | nil => exact absurd rfl hy
      | cons y ys2 =>
        rw [md_ul_step y ys2 (hys y (by simp))]
        have e2 : (y :: ys2).takeWhile isUlLine = y :: ys2 := by
          have := takeWhile_all_append isUlLine ([] : List Line) hys
          simpa using this
        have e3 : (y :: ys2).dropWhile isUlLine = [] := by
          have := dropWhile_all_append isUlLine ([] : List Line) hys
          simpa using this
        rw [e2, e3]
        simp [markdown_to_html, mdLoop]
  · intro hxs hys hx hy
    cases xs with
    | nil => exact absurd rfl hx
    | cons x xs2 =>
      rw [List.cons_append, md_ol_step x (xs2 ++ b :: ys) (hxs x (by simp))]
      have e1 : (x :: (xs2 ++ b :: ys)) = (x :: xs2) ++ (b :: ys) := by simp
      rw [e1, takeWhile_all_append isOlLine (b :: ys) hxs,
        dropWhile_all_append isOlLine (b :: ys) hxs,
        List.takeWhile_cons_of_neg (by simp [hbol]),
        List.dropWhile_cons_of_neg (by simp [hbol]), md_blank_step b ys hb]
      cases ys with
      | nil => exact absurd rfl hy
      | cons y ys2 =>
        rw [md_ol_step y ys2 (hys y (by simp))]
        have e2 : (y :: ys2).takeWhile isOlLine = y :: ys2 := by
          have := takeWhile_all_append isOlLine ([] : List Line) hys
          simpa using this
        have e3 : (y :: ys2).dropWhile isOlLine = [] := by
          have := dropWhile_all_append isOlLine ([] : List Line) hys
          simpa using this
        rw [e2, e3]
        simp [markdown_to_html, mdLoop]
  · intro ps rest hps hne
    cases ps with
    | nil => exact absurd rfl hne
    | cons p ps2 =>
      have hpp := hps p (by simp)
      simp only [isParaLine, isUlLine, isOlLine, Bool.and_eq_true,
        Bool.not_eq_true'] at hpp
      obtain ⟨⟨⟨hA, hB⟩, hC⟩, hD⟩ := hpp
      have g1 : isBlankLine (pyRstripNl p) = false := by
        cases hx : isBlankLine (pyRstripNl p)
        · rfl
        · exact absurd (isBlankLine_rstrip_iff.mp hx) (by simp [hA])
      have g2 : pyStartswith (pyRstripNl p) "#".data = false := by
        cases hx : pyStartswith (pyRstripNl p) "#".data
        · rfl
        · exact absurd (startswith_of_rstrip_startswith hx) (by simp [hB])
      have g3 : pyStartswith (pyRstripNl p) "- ".data = false := by
        cases hx : pyStartswith (pyRstripNl p) "- ".data
        · rfl
        · exact absurd (startswith_of_rstrip_startswith hx) (by simp [hC])
      have g4 : pyStartswith (pyRstripNl p) "* ".data = false := by
        cases hx : pyStartswith (pyRstripNl p) "* ".data
        · rfl
        · exact absurd (startswith_of_rstrip_startswith hx) (by simp [hD])
      rw [List.cons_append, md_para_step p (ps2 ++ b :: rest) g1 g2 g3 g4]
      have e1 : (p :: (ps2 ++ b :: rest)) = (p :: ps2) ++ (b :: rest) := by simp
      rw [e1, takeWhile_all_append isParaLine (b :: rest) hps,
        dropWhile_all_append isParaLine (b :: rest) hps,
        List.takeWhile_cons_of_neg (by simp [hbpara]),
        List.dropWhile_cons_of_neg (by simp [hbpara]), md_blank_step b rest hb]
      simp

/-- Witness for the amended claim C2: concrete blank-separated unordered
runs, ordered runs, and a paragraph closed by a blank line. -/
theorem claim_C2_witness :
    markdown_to_html (["- a".data] ++ "".data :: ["- b".data]) =
      ("<ul>".data :: ["- a".data].map liItem ++ ["</ul>".data])
        ++ ("<ul>".data :: ["- b".data].map liItem ++ ["</ul>".data]) ∧
    markdown_to_html (["* a".data] ++ "".data :: ["* b".data]) =
      ("<ol>".data :: ["* a".data].map liItem ++ ["</ol>".data])
        ++ ("<ol>".data :: ["* b".data].map liItem ++ ["</ol>".data]) ∧
    markdown_to_html (["line1".data] ++ "".data :: ["line2".data]) =
      "<p>".data
        :: List.intersperse "<br/>".data
             ((["line1".data].map pyRstripNl).map process_line_formatting)
        ++ "</p>".data :: markdown_to_html ["line2".data] := by
  refine ⟨?_, ?_, ?_⟩
  · exact (claim_C2 ["- a".data] ["- b".data] "".data (by decide)).1
      (by decide) (by decide) (by decide) (by decide)
  · exact (claim_C2 ["* a".data] ["* b".data] "".data (by decide)).2.1
      (by decide) (by decide) (by decide) (by decide)
  · exact (claim_C2 [] [] "".data (by decide)).2.2 ["line1".data]
      ["line2".data] (by decide) (by decide)

/-- Claim C3: rendering the instrumented converter gives exactly the
converter's output, and its open/close markup events form a matched
sequence: every opened `<ul>`, `<ol>` or `<p>` is closed exactly once,
when its block ends (no block stays open at end of input). -/
theorem claim_C3 (lines : List Line) :
    (mdTagged lines).map renderOut = markdown_to_html lines ∧
    MatchedEvents (markupEvents (mdTagged lines)) :=
  ⟨mdLoopT_render lines.length lines, mdLoopT_matched lines.length lines⟩

/-- Counterexample to claim C4: the non-blank line `#bad` matches neither
the heading form nor a list prefix, yet the converter emits nothing for it
(it is silently dropped, not treated as paragraph text). -/
theorem claim_C4_counterexample :
    isBlankLine "#bad".data = false ∧
    headingMatch "#bad".data = none ∧
    markdown_to_html ["#bad".data] = ([] : List Line) := by
  refine ⟨by decide, by decide, by decide⟩

/-- Claim C4 as amended: a non-blank line that starts no heading, `- `, or
`* ` prefix and does not begin with `#` opens a paragraph block and
contributes one transformed output line; but a line beginning with `#`
that fails the heading form is silently dropped and produces no output. -/
theorem claim_C4 (l : Line) (rest : List Line) :
    (isBlankLine (pyRstripNl l) = false →
      pyStartswith (pyRstripNl l) "#".data = false →
      pyStartswith (pyRstripNl l) "- ".data = false →
      pyStartswith (pyRstripNl l) "* ".data = false →
      markdown_to_html (l :: rest) =
        "<p>".data
          :: List.intersperse "<br/>".data
               ((((l :: rest).takeWhile isParaLine).map pyRstripNl).map
                 process_line_formatting)
          ++ "</p>".data
            :: markdown_to_html ((l :: rest).dropWhile isParaLine)) ∧
    (pyStartswith (pyRstripNl l) "#".data = true →
      headingMatch (pyRstripNl l) = none →
      markdown_to_html (l :: rest) = markdown_to_html rest) :=
  ⟨fun hb h1 h2 h3 => md_para_step l rest hb h1 h2 h3,
   fun hh hm => by rw [md_heading_step l rest hh, hm]; rfl⟩

/-- Witness for the amended claim C4: the paragraph line `hello` produces
one transformed output line inside a `<p>` block while the following
`#bad` line is dropped. -/
theorem claim_C4_witness :
    markdown_to_html ["hello".data, "#bad".data] =
      ["<p>".data, "hello".data, "</p>".data] := by
  have h := (claim_C4 "hello".data ["#bad".data]).1 (by decide) (by decide)
    (by decide) (by decide)
  rw [h]
  decide

set_option maxRecDepth 100000 in
/-- Claim C5: hash substitution replaces a `[[...]]` span by the lowercase
hexadecimal MD5 digest of its inner content; it is deterministic and
content-addressed: the transform of `[[abc]]` is the MD5 digest of `abc`,
namely the well-known 32-character lowercase hex string. -/
theorem claim_C5 :
    process_line_formatting "[[abc]]".data = md5hex "abc".data ∧
    md5hex "abc".data = "900150983cd24fb0d6963f7d28e17f72".data ∧
    (∀ s : Line, (md5hex s).length = 32) ∧
    (∀ c ∈ md5hex "abc".data, c ∈ "0123456789abcdef".data) :=
  ⟨by decide, by decide, md5hex_length, by decide⟩

/-- Counterexample to claim C6: item content is not trimmed of surrounding
whitespace; the line `-  x ` yields `<li> x </li>`, not `<li>x</li>`. -/
theorem claim_C6_counterexample :
    markdown_to_html ["-  x ".data] =
      ["<ul>".data, "<li> x </li>".data, "</ul>".data] ∧
    markdown_to_html ["-  x ".data] ≠
      ["<ul>".data, "<li>x</li>".data, "</ul>".data] := by
  constructor
  · decide
  · decide

/-- Claim C6 as amended: for each `- ` (resp. `* `) item line the emitted
`<li>` content is the remainder of the raw line after the 2-character
prefix with trailing newlines removed and inline substitutions applied;
no surrounding-whitespace trimming takes place. -/
theorem claim_C6 (l : Line) (rest : List Line) :
    (isUlLine l = true → markdown_to_html (l :: rest) =
      "<ul>".data :: ((l :: rest).takeWhile isUlLine).map liItem
        ++ "</ul>".data :: markdown_to_html ((l :: rest).dropWhile isUlLine)) ∧
    (isOlLine l = true → markdown_to_html (l :: rest) =
      "<ol>".data :: ((l :: rest).takeWhile isOlLine).map liItem
        ++ "</ol>".data :: markdown_to_html ((l :: rest).dropWhile isOlLine)) ∧
    (∀ s : Line, liItem s =
      "<li>".data ++ process_line_formatting (pyRstripNl (s.drop 2))
        ++ "</li>".data) :=
  ⟨md_ul_step l rest, md_ol_step l rest, fun _ => rfl⟩

/-- Witness for the amended claim C6 at concrete unordered and ordered
item lines. -/
theorem claim_C6_witness :
    markdown_to_html ["- a".data, "* b".data] =
      ["<ul>".data, "<li>a</li>".data, "</ul>".data,
       "<ol>".data, "<li>b</li>".data, "</ol>".data] := by
  have h := (claim_C6 "- a".data ["* b".data]).1 (by decide)
  have h2 := (claim_C6 "* b".data ([] : List Line)).2.1 (by decide)
  rw [h, show ("- a".data :: ["* b".data]).dropWhile isUlLine
      = ["* b".data] from by decide, h2]
  decide

/-- Claim C7: when no input line contains a special character, the number
of output lines is at least the number of non-blank input lines. -/
theorem claim_C7 (lines : List Line)
    (h : ∀ l ∈ lines, hasSpecialChar l = false) :
    nonBlankCount lines ≤ (markdown_to_html lines).length :=
  mdLoop_count_aux lines.length lines (Nat.le_refl _) h

/-- Witness for claim C7 at a concrete input. -/
theorem claim_C7_witness :
    (∀ l ∈ ["hello".data, "".data, "world!".data], hasSpecialChar l = false) ∧
    nonBlankCount ["hello".data, "".data, "world!".data]
      ≤ (markdown_to_html ["hello".data, "".data, "world!".data]).length :=
  ⟨by decide, claim_C7 ["hello".data, "".data, "world!".data] (by decide)⟩

/-- Claim C8: the inline transform is total; a string containing none of
the four marker characters passes through unchanged, and unterminated
spans (an opening marker with no matching closer) are left verbatim. -/
theorem claim_C8 (s : Line) (h1 : '[' ∉ s) (h2 : '(' ∉ s) (h3 : '*' ∉ s)
    (h4 : '_' ∉ s) :
    process_line_formatting s = s ∧
    process_line_formatting "**unterminated".data = "**unterminated".data ∧
    process_line_formatting "__x".data = "__x".data ∧
    process_line_formatting "[[no close".data = "[[no close".data ∧
    process_line_formatting "((half".data = "((half".data :=
  ⟨process_line_formatting_id h1 h2 h3 h4, by decide, by decide, by decide,
    by decide⟩

/-- Witness for claim C8 at a concrete marker-free string. -/
theorem claim_C8_witness :
    process_line_formatting "plain text".data = "plain text".data :=
  (claim_C8 "plain text".data (by decide) (by decide) (by decide)
    (by decide)).1

/-- Counterexample to claim C9: the code tests only `os.path.exists`; for
a path that exists but is not a regular file (the oracle returns true, as
`os.path.exists` does for a directory) the conversion proceeds and the
`Missing` error is not produced. -/
theorem claim_C9_counterexample :
    cliMain ["prog".data, "adir".data, "out.html".data] (fun _ => true) =
      CliOutcome.converted "adir".data "out.html".data ∧
    cliMain ["prog".data, "adir".data, "out.html".data] (fun _ => true) ≠
      CliOutcome.missingInput "adir".data := by
  constructor
  · decide
  · decide

/-- Claim C9 as amended: exactly two error behaviors, both terminal before
any output is written, and both decided only by the argument count and
`os.path.exists`: fewer than two arguments after the program name gives
the usage error, and an input path for which `os.path.exists` is false
gives the `Missing` error; any existing path proceeds to conversion
regardless of whether it is a regular file. -/
theorem claim_C9 (argv : List Line) (pathExists : Line → Bool) :
    (argv.length < 3 → cliMain argv pathExists = CliOutcome.usageError) ∧
    (3 ≤ argv.length → pathExists (argv.getD 1 []) = false →
      cliMain argv pathExists = CliOutcome.missingInput (argv.getD 1 [])) ∧
    (3 ≤ argv.length → pathExists (argv.getD 1 []) = true →
      cliMain argv pathExists =
        CliOutcome.converted (argv.getD 1 []) (argv.getD 2 [])) := by
  refine ⟨fun h => ?_, fun h hp => ?_, fun h hp => ?_⟩
  · simp [cliMain, h]
  · have hn : ¬argv.length < 3 := by omega
    unfold cliMain
    rw [if_neg hn]
    simp only [hp, Bool.not_false, if_true]
  · have hn : ¬argv.length < 3 := by omega
    unfold cliMain
    rw [if_neg hn]
    simp only [hp, Bool.not_true, Bool.false_eq_true, if_false]

/-- Witness for the amended claim C9: a missing input path produces the
`Missing` outcome. -/
theorem claim_C9_witness :
    cliMain ["md2html".data, "in.md".data, "o.html".data] (fun _ => false) =
      CliOutcome.missingInput "in.md".data :=
  (claim_C9 ["md2html".data, "in.md".data, "o.html".data]
    (fun _ => false)).2.1 (by decide) (by decide)

/-- Claim C10: the block-assembly loop terminates on every finite input:
every branch consumes at least one line, so any fuel at least the number
of lines computes the same, stable result. -/
theorem claim_C10 (lines : List Line) (fuel : Nat)
    (h : lines.length ≤ fuel) :
    mdLoop fuel lines = markdown_to_html lines :=
  mdLoop_eq_of_le fuel lines.length lines h (Nat.le_refl _)

/-- Witness for claim C10 at a concrete input and fuel. -/
theorem claim_C10_witness :
    (["# Hi".data, "- a".data] : List Line).length ≤ 7 ∧
    mdLoop 7 ["# Hi".data, "- a".data]
      = markdown_to_html ["# Hi".data, "- a".data] :=
  ⟨by decide, claim_C10 ["# Hi".data, "- a".data] 7 (by decide)⟩
